import Mathlib

/-!
Verification of the NGWPC auto-eval-jobs repository: the raster-mosaicking
engine (`fim_mosaicker`) and the high-water-mark comparison script
(`hwm_evaluator/compare_to_hwms.py`).

The mosaicking engine itself (`fim_mosaicker/mosaic.py`) is not present in
the source tree (only its test suite and mock-data generator are), so the
engine is modelled from the specification (spec.md sections 3-7); the
`hwm_evaluator` definitions are translated directly from
`src/hwm_evaluator/compare_to_hwms.py`.

Rasters are embedded as integer-lattice pixel grids with rational pixel
values; fallible pipeline stages return `Except`.
-/

namespace HwmEvaluator

/-- `convert_feet(feet, unit_guess)` from `src/hwm_evaluator/compare_to_hwms.py`:
returns `feet * 0.3048` when `unit_guess` is `'meters'`, `feet` unchanged when
`unit_guess` is `'feet'`, and `feet * 0.3048` for any other string
(the code assumes meters when the unit is unknown). `0.3048 = 381/1250`. -/
def convert_feet (feet : ℚ) (unit_guess : String) : ℚ :=
  if unit_guess = "meters" then feet * (381 / 1250)
  else if unit_guess = "feet" then feet
  else feet * (381 / 1250)

/-- The per-point `hit` label computed in `process_points`
(`src/hwm_evaluator/compare_to_hwms.py` lines 67-70): the sampled raster
value is `None` for a point outside raster coverage (modelled as `none`);
the label is `"hit"` iff the value is not `None` and strictly positive. -/
def hitLabel (raster_val : Option ℚ) : String :=
  match raster_val with
  | some x => if 0 < x then "hit" else "miss"
  | none => "miss"

/-- The `dist_to_hit_ft` column as computed in `process_points` lines 96-103:
the CRS-unit distance (possibly `None` when there are no positive geometries)
divided by `0.3048` when the CRS units are meters, kept as-is otherwise. -/
def distToHitFt (unit_guess : String) (dist_crs : Option ℚ) : Option ℚ :=
  match dist_crs with
  | some d => some (if unit_guess = "meters" then d / (381 / 1250) else d)
  | none => none

/-- One saved output row of `process_points`: the `hit` label together with
the final `dist_to_hit_ft` value after line 106 overwrites the distance with
`0.0` for every point labelled `"hit"`. -/
def savedPoint (raster_val dist_crs : Option ℚ) (unit_guess : String) :
    String × Option ℚ :=
  let hit := hitLabel raster_val
  let dft := distToHitFt unit_guess dist_crs
  (hit, if hit = "hit" then some 0 else dft)

end HwmEvaluator

namespace FimMosaicker

/-- Modelled from the spec (section 7): the error taxonomy of the mosaicking
engine, whose source file `mosaic.py` is not in the tree. -/
inductive MosaicError
  | UnsupportedKindError
  | MissingInputError
  | MissingNodataError
  | IncompatibleGridError
  | BlockMergeError
  | WriteError
deriving DecidableEq, Repr

/-- Modelled from the spec (section 3, RasterSource): an input raster as
handed to the Source Registry. Inputs are co-registered to a common CRS and
pixel resolution (spec section 1), so source placement is expressed directly
on the common integer pixel lattice: `x0`, `y0` is the top-left pixel of the
source on that lattice, `w`, `h` its size, and `data` its pixel values in
source-local coordinates. `px_size` and `rot` are the geotransform fields the
registry validates; `nodata` may be undeclared. -/
structure RawSource where
  px_size : ℚ
  rot : ℚ
  nodata : Option ℚ
  x0 : ℤ
  y0 : ℤ
  w : ℕ
  h : ℕ
  data : ℤ → ℤ → ℚ

/-- Modelled from the spec (section 3, RasterSource): a validated, opened
source, with its declared nodata value. -/
structure RasterSource where
  nodata : ℚ
  x0 : ℤ
  y0 : ℤ
  w : ℕ
  h : ℕ
  data : ℤ → ℤ → ℚ

/-- Modelled from the spec (section 4.2): opening one source records its
nodata value and fails with `MissingNodataError` when the source lacks a
declared nodata value. -/
def openSource (r : RawSource) : Except MosaicError RasterSource :=
  match r.nodata with
  | none => .error .MissingNodataError
  | some nd => .ok ⟨nd, r.x0, r.y0, r.w, r.h, r.data⟩

/-- Modelled from the spec (section 4.2): open each input path in order,
failing the whole run on the first source without a declared nodata value. -/
def openAll : List RawSource → Except MosaicError (List RasterSource)
  | [] => .ok []
  | r :: rest =>
    match openSource r with
    | .error e => .error e
    | .ok s =>
      match openAll rest with
      | .error e => .error e
      | .ok ss => .ok (s :: ss)

/-- Modelled from the spec (section 4.2): every source must share the same
pixel size and have no rotation/skew. -/
def gridCompatible (rs : List RawSource) : Bool :=
  match rs with
  | [] => true
  | r :: rest =>
    decide (r.rot = 0) &&
      rest.all fun s => decide (s.px_size = r.px_size) && decide (s.rot = 0)

/-- Modelled from the spec (section 4.2, Source Registry): open and record
every source, then validate grid compatibility; a mismatch fails the whole
job with `IncompatibleGridError` before any merging begins. -/
def sourceRegistry (rs : List RawSource) : Except MosaicError (List RasterSource) :=
  match openAll rs with
  | .error e => .error e
  | .ok srcs => if gridCompatible rs then .ok srcs else .error .IncompatibleGridError

/-- Modelled from the spec (section 3, TypeProfile): the mosaic kind. -/
inductive FimKind
  | extent
  | depth
deriving DecidableEq, Repr

/-- Modelled from the spec (section 3, TypeProfile): kind, output datatype
and output nodata sentinel. -/
structure TypeProfile where
  kind : FimKind
  dtype : String
  nodata : ℚ
deriving DecidableEq, Repr

/-- The `extent` profile: 8-bit unsigned integers with nodata 255. -/
def extentProfile : TypeProfile := ⟨.extent, "uint8", 255⟩

/-- The `depth` profile: 32-bit floats with nodata -9999.0. -/
def depthProfile : TypeProfile := ⟨.depth, "float32", -9999⟩

/-- Modelled from the spec (section 4.1, Type Profile Resolver): maps the
`fim_type` selector to a TypeProfile, failing with `UnsupportedKindError`
for any value other than `extent` or `depth`, before any raster I/O. -/
def resolveTypeProfile (fim_type : String) : Except MosaicError TypeProfile :=
  if fim_type = "extent" then .ok extentProfile
  else if fim_type = "depth" then .ok depthProfile
  else .error .UnsupportedKindError

/-- Modelled from the spec (section 4.4): the value a source holds at a
global lattice pixel, `none` outside the source's footprint. -/
def srcValAt (s : RasterSource) (gx gy : ℤ) : Option ℚ :=
  if s.x0 ≤ gx ∧ gx < s.x0 + (s.w : ℤ) ∧ s.y0 ≤ gy ∧ gy < s.y0 + (s.h : ℤ) then
    some (s.data (gx - s.x0) (gy - s.y0))
  else none

/-- Modelled from the spec (section 4.4): one source's contribution at a
pixel under its validity mask — its value there when inside the footprint and
different from that source's nodata, `none` otherwise. -/
def srcContribution (s : RasterSource) (gx gy : ℤ) : Option ℚ :=
  match srcValAt s gx gy with
  | some v => if v = s.nodata then none else some v
  | none => none

/-- Modelled from the spec (section 4.4): the list of valid (non-nodata)
pixel values over all sources at one global lattice pixel, in source order. -/
def validValsAt (srcs : List RasterSource) (gx gy : ℤ) : List ℚ :=
  srcs.filterMap fun s => srcContribution s gx gy

/-- A source is valid at a pixel when it contributes a non-nodata value. -/
def validAt (s : RasterSource) (gx gy : ℤ) : Prop :=
  ∃ v, srcValAt s gx gy = some v ∧ v ≠ s.nodata

/-- Modelled from the spec (section 4.4, `extent` merge rule): 1 if any
valid value equals 1, else 0 if there is any valid value, else nodata 255. -/
def mergeExtent (vals : List ℚ) : ℚ :=
  if (1 : ℚ) ∈ vals then 1 else if vals.isEmpty then 255 else 0

/-- Modelled from the spec (section 4.4, `depth` merge rule): the maximum of
all valid values, nodata -9999 when there are none. -/
def mergeDepth (vals : List ℚ) : ℚ :=
  match vals with
  | [] => -9999
  | v :: vs => vs.foldl max v

/-- The merge rule selected by the TypeProfile kind. -/
def mergeVals : FimKind → List ℚ → ℚ
  | .extent => mergeExtent
  | .depth => mergeDepth

/-- The binary per-pixel combination underlying both merge rules, on
optional pixel contributions (`none` = no valid value yet): `extent` ORs the
1-flags of two valid values, `depth` takes their maximum. -/
def combinePx (k : FimKind) : Option ℚ → Option ℚ → Option ℚ
  | none, b => b
  | some x, none => some x
  | some x, some y =>
    match k with
    | .extent => some (if x = 1 ∨ y = 1 then 1 else 0)
    | .depth => some (max x y)

/-- Folding the binary combination over a list of valid values. -/
def foldPx (k : FimKind) (l : List ℚ) : Option ℚ :=
  l.foldl (fun acc v => combinePx k acc (some v)) none

/-- Materialising a combined contribution as an output pixel value: `none`
becomes the kind's nodata; for `extent` a valid combined value is flattened
to its 1-flag, for `depth` it is kept. -/
def mergeOut (k : FimKind) : Option ℚ → ℚ
  | none =>
    match k with
    | .extent => 255
    | .depth => -9999
  | some v =>
    match k with
    | .extent => if v = 1 then 1 else 0
    | .depth => v

/-- Modelled from the spec (section 3, OutputGrid): the union bounding box
of all source footprints on the common lattice, with derived dimensions. -/
structure OutputGrid where
  minx : ℤ
  miny : ℤ
  width : ℕ
  height : ℕ
deriving Repr

/-- Modelled from the spec (section 4.3, Grid Planner): the output grid is
the union bounding box of all source bounds; empty input yields an empty
grid. On the shared integer lattice the snap-to-pixel is exact. -/
def planGrid (srcs : List RasterSource) : OutputGrid :=
  match srcs with
  | [] => ⟨0, 0, 0, 0⟩
  | s :: rest =>
    let minx := rest.foldl (fun m t => min m t.x0) s.x0
    let miny := rest.foldl (fun m t => min m t.y0) s.y0
    let maxx := rest.foldl (fun m t => max m (t.x0 + (t.w : ℤ))) (s.x0 + (s.w : ℤ))
    let maxy := rest.foldl (fun m t => max m (t.y0 + (t.h : ℤ))) (s.y0 + (s.h : ℤ))
    ⟨minx, miny, (maxx - minx).toNat, (maxy - miny).toNat⟩

/-- Modelled from the spec (section 3, Window): a rectangular output block
in output-grid pixel coordinates. -/
structure Window where
  xoff : ℕ
  yoff : ℕ
  w : ℕ
  h : ℕ
deriving DecidableEq, Repr

/-- The default tiling block dimension (spec section 3: 256 by 256). -/
def blockSize : ℕ := 256

/-- Modelled from the spec (section 4.3): partition the output grid into
non-overlapping windows of the block dimension, clipped at the right and
bottom edges so every window stays within bounds. -/
def planWindows (width height bs : ℕ) : List Window :=
  (List.range ((height + bs - 1) / bs)).flatMap fun j =>
    (List.range ((width + bs - 1) / bs)).map fun i =>
      ⟨i * bs, j * bs, min bs (width - i * bs), min bs (height - j * bs)⟩

/-- Membership of an output pixel in a window. -/
def inWindow (wd : Window) (x y : ℕ) : Prop :=
  wd.xoff ≤ x ∧ x < wd.xoff + wd.w ∧ wd.yoff ≤ y ∧ y < wd.yoff + wd.h

instance instDecidableInWindow (wd : Window) (x y : ℕ) : Decidable (inWindow wd x y) := by
  unfold inWindow
  infer_instance

/-- Modelled from the spec (section 4.4): whether a source's bounding box
geometrically intersects a window — sources failing this test are skipped
without I/O. -/
def intersectsWin (g : OutputGrid) (wd : Window) (s : RasterSource) : Bool :=
  decide (s.x0 < g.minx + (wd.xoff : ℤ) + (wd.w : ℤ)) &&
  decide (g.minx + (wd.xoff : ℤ) < s.x0 + (s.w : ℤ)) &&
  decide (s.y0 < g.miny + (wd.yoff : ℤ) + (wd.h : ℤ)) &&
  decide (g.miny + (wd.yoff : ℤ) < s.y0 + (s.h : ℤ))

/-- Modelled from the spec (section 4.4, Block Merger): the merged value at
window-local pixel `(lx, ly)`, computed over only the sources whose bounding
box intersects the window. -/
def blockMerge (k : FimKind) (srcs : List RasterSource) (g : OutputGrid)
    (wd : Window) (lx ly : ℕ) : ℚ :=
  mergeVals k
    (validValsAt (srcs.filter fun s => intersectsWin g wd s)
      (g.minx + ((wd.xoff : ℤ) + (lx : ℤ))) (g.miny + ((wd.yoff : ℤ) + (ly : ℤ))))

/-- Modelled from the spec (sections 3 and 4.6, Output Writer): the
destination raster — datatype and nodata from the TypeProfile, dimensions
and placement from the Grid Planner, and the pixel contents. -/
structure OutputRaster where
  dtype : String
  nodata : ℚ
  minx : ℤ
  miny : ℤ
  width : ℕ
  height : ℕ
  px : ℕ → ℕ → ℚ

/-- Modelled from the spec (section 4.6): committing one merged block writes
its values into exactly its own window's region of the destination. -/
def writeBlock (k : FimKind) (srcs : List RasterSource) (g : OutputGrid)
    (m : ℕ → ℕ → ℚ) (wd : Window) : ℕ → ℕ → ℚ :=
  fun x y =>
    if inWindow wd x y then blockMerge k srcs g wd (x - wd.xoff) (y - wd.yoff)
    else m x y

/-- Modelled from the spec (section 4.5): commit the blocks of a schedule in
order into the destination pixel buffer. -/
def commitBlocks (k : FimKind) (srcs : List RasterSource) (g : OutputGrid)
    (init : ℕ → ℕ → ℚ) (sched : List Window) : ℕ → ℕ → ℚ :=
  sched.foldl (writeBlock k srcs g) init

/-- Split a list into chunks of size `c + 1` (the extra one guarantees
progress). -/
def chunkify {α : Type} (c : ℕ) : List α → List (List α)
  | [] => []
  | x :: xs => (x :: xs.take c) :: chunkify c (xs.drop c)
termination_by l => l.length
decreasing_by
  simp only [List.length_drop, List.length_cons]
  omega

/-- Modelled from the spec (section 4.5, Execution Controller): degree 1
commits windows sequentially in planning order; degree `d > 1` splits the
windows into contiguous chunks, one per worker, and commits them in worker
completion order — modelled here as reversed worker order; the refinement
theorem shows every completion order yields the same raster. -/
def schedule (d : ℕ) (ws : List Window) : List Window :=
  if d ≤ 1 then ws
  else ((chunkify ((ws.length + d - 1) / d - 1) ws).reverse).flatten

/-- Modelled from the spec (sections 2, 4 and 6): the whole pipeline — Type
Profile Resolver, Source Registry, Grid Planner, Execution Controller over
the Block Merger, Output Writer. The destination is created with the
profile's datatype and nodata (initially all-nodata) and every scheduled
window is committed; any stage failure aborts the run with no output. -/
def runMosaic (fim_type : String) (rs : List RawSource) (parallel_blocks : ℕ) :
    Except MosaicError OutputRaster :=
  match resolveTypeProfile fim_type with
  | .error e => .error e
  | .ok profile =>
    match sourceRegistry rs with
    | .error e => .error e
    | .ok srcs =>
      let g := planGrid srcs
      let ws := planWindows g.width g.height blockSize
      let sched := schedule parallel_blocks ws
      let buf := commitBlocks profile.kind srcs g (fun _ _ => profile.nodata) sched
      .ok ⟨profile.dtype, profile.nodata, g.minx, g.miny, g.width, g.height, buf⟩

/-- The reference description of a successful run: every in-grid pixel holds
the merge of all valid source values there, every out-of-grid index the
profile's nodata. -/
def mosaicSpec (p : TypeProfile) (srcs : List RasterSource) : OutputRaster where
  dtype := p.dtype
  nodata := p.nodata
  minx := (planGrid srcs).minx
  miny := (planGrid srcs).miny
  width := (planGrid srcs).width
  height := (planGrid srcs).height
  px := fun x y =>
    if x < (planGrid srcs).width ∧ y < (planGrid srcs).height then
      mergeVals p.kind
        (validValsAt srcs ((planGrid srcs).minx + (x : ℤ)) ((planGrid srcs).miny + (y : ℤ)))
    else p.nodata

/-- Test fixture: a 1-by-1 depth source at lattice pixel (0, 0) with value 5. -/
def rawDepthA : RawSource := ⟨1, 0, some (-9999), 0, 0, 1, 1, fun _ _ => 5⟩

/-- Test fixture: a 1-by-1 depth source at lattice pixel (1, 0) with value 7,
spatially disjoint from `rawDepthA`. -/
def rawDepthB : RawSource := ⟨1, 0, some (-9999), 1, 0, 1, 1, fun _ _ => 7⟩

/-- Test fixture: a 1-by-1 depth source at lattice pixel (0, 0) with value 7,
overlapping `rawDepthA`. -/
def rawOverB : RawSource := ⟨1, 0, some (-9999), 0, 0, 1, 1, fun _ _ => 7⟩

/-- The validated form of `rawDepthA`. -/
def srcDepthA : RasterSource := ⟨-9999, 0, 0, 1, 1, fun _ _ => 5⟩

/-- The validated form of `rawDepthB`. -/
def srcDepthB : RasterSource := ⟨-9999, 1, 0, 1, 1, fun _ _ => 7⟩

/-- The validated form of `rawOverB`. -/
def srcOverB : RasterSource := ⟨-9999, 0, 0, 1, 1, fun _ _ => 7⟩

/-- Test fixture: a 1-by-1 binary extent source at (0, 0) with value 1. -/
def rawExtA : RawSource := ⟨1, 0, some 255, 0, 0, 1, 1, fun _ _ => 1⟩

/-- The validated form of `rawExtA`. -/
def srcExtA : RasterSource := ⟨255, 0, 0, 1, 1, fun _ _ => 1⟩

/-- Test fixture: a source with no declared nodata value. -/
def rawNoNodata : RawSource := ⟨1, 0, none, 0, 0, 1, 1, fun _ _ => 0⟩

theorem resolve_extent : resolveTypeProfile "extent" = .ok extentProfile := by
  unfold resolveTypeProfile
  rw [if_pos rfl]

theorem resolve_depth : resolveTypeProfile "depth" = .ok depthProfile := by
  unfold resolveTypeProfile
  rw [if_neg (by decide), if_pos rfl]

theorem resolve_ok_cases {fim : String} {p : TypeProfile}
    (h : resolveTypeProfile fim = .ok p) : p = extentProfile ∨ p = depthProfile := by
  unfold resolveTypeProfile at h
  split_ifs at h
  · exact Or.inl (Except.ok.inj h).symm
  · exact Or.inr (Except.ok.inj h).symm

theorem resolve_unsupported {fim : String} (h1 : fim ≠ "extent") (h2 : fim ≠ "depth") :
    resolveTypeProfile fim = .error .UnsupportedKindError := by
  unfold resolveTypeProfile
  rw [if_neg h1, if_neg h2]

theorem runMosaic_err_kind {fim : String} {e : MosaicError}
    (h : resolveTypeProfile fim = .error e) (rs : List RawSource) (d : ℕ) :
    runMosaic fim rs d = .error e := by
  unfold runMosaic
  rw [h]

theorem runMosaic_err_reg {fim : String} {p : TypeProfile} {e : MosaicError}
    (hp : resolveTypeProfile fim = .ok p) {rs : List RawSource}
    (h : sourceRegistry rs = .error e) (d : ℕ) :
    runMosaic fim rs d = .error e := by
  unfold runMosaic
  rw [hp, h]

theorem openAll_missing {rs : List RawSource}
    (h : ∃ r ∈ rs, r.nodata = none) : openAll rs = .error .MissingNodataError := by
  induction rs with
  | nil => simp at h
  | cons r rest ih =>
    rcases h with ⟨r', hr', hnone⟩
    rcases List.mem_cons.mp hr' with rfl | hmem
    · unfold openAll openSource
      rw [hnone]
    · unfold openAll
      cases hos : openSource r with
      | error e =>
        unfold openSource at hos
        cases hnd : r.nodata with
        | none =>
          rw [hnd] at hos
          rw [← Except.error.inj hos]
        | some v =>
          rw [hnd] at hos
          cases hos
      | ok s => rw [ih ⟨r', hmem, hnone⟩]

theorem sourceRegistry_missing {rs : List RawSource}
    (h : ∃ r ∈ rs, r.nodata = none) :
    sourceRegistry rs = .error .MissingNodataError := by
  unfold sourceRegistry
  rw [openAll_missing h]

theorem combinePx_none_left (k : FimKind) (a : Option ℚ) : combinePx k none a = a := rfl

theorem combinePx_none_right (k : FimKind) (a : Option ℚ) : combinePx k a none = a := by
  cases a <;> rfl

theorem combinePx_comm (k : FimKind) (a b : Option ℚ) : combinePx k a b = combinePx k b a := by
  cases a with
  | none => cases b <;> rfl
  | some x =>
    cases b with
    | none => rfl
    | some y =>
      cases k with
      | extent =>
        simp only [combinePx]
        by_cases hx : x = 1 <;> by_cases hy : y = 1 <;> simp [hx, hy]
      | depth =>
        simp only [combinePx]
        rw [max_comm]

theorem combinePx_assoc (k : FimKind) (a b c : Option ℚ) :
    combinePx k (combinePx k a b) c = combinePx k a (combinePx k b c) := by
  cases a with
  | none => rw [combinePx_none_left, combinePx_none_left]
  | some x =>
    cases b with
    | none => rw [combinePx_none_right, combinePx_none_left]
    | some y =>
      cases c with
      | none => rw [combinePx_none_right, combinePx_none_right]
      | some z =>
        cases k with
        | depth =>
          simp only [combinePx]
          rw [max_assoc]
        | extent =>
          simp only [combinePx]
          by_cases hx : x = 1 <;> by_cases hy : y = 1 <;> by_cases hz : z = 1 <;>
            simp [hx, hy, hz]

theorem foldPx_step (k : FimKind) (l : List ℚ) (a : Option ℚ) :
    l.foldl (fun acc v => combinePx k acc (some v)) a = combinePx k a (foldPx k l) := by
  induction l generalizing a with
  | nil =>
    rw [List.foldl_nil]
    exact (combinePx_none_right k a).symm
  | cons v vs ih =>
    simp only [foldPx, List.foldl_cons]
    rw [ih (combinePx k a (some v)), ih (combinePx k none (some v)), combinePx_none_left,
      combinePx_assoc]

theorem foldPx_cons (k : FimKind) (v : ℚ) (vs : List ℚ) :
    foldPx k (v :: vs) = combinePx k (some v) (foldPx k vs) := by
  unfold foldPx
  rw [List.foldl_cons, foldPx_step, combinePx_none_left]
  rfl

theorem mergeDepth_foldPx (vs : List ℚ) : ∀ v : ℚ,
    mergeOut .depth (combinePx .depth (some v) (foldPx .depth vs)) = mergeDepth (v :: vs) := by
  induction vs with
  | nil =>
    intro v
    rfl
  | cons w ws ih =>
    intro v
    rw [foldPx_cons, ← combinePx_assoc]
    have h1 : combinePx .depth (some v) (some w) = some (max v w) := rfl
    rw [h1, ih (max v w)]
    simp only [mergeDepth, List.foldl_cons]

theorem mergeExtent_foldPx (vs : List ℚ) : ∀ v : ℚ,
    mergeOut .extent (combinePx .extent (some v) (foldPx .extent vs))
      = if v = 1 ∨ (1 : ℚ) ∈ vs then 1 else 0 := by
  induction vs with
  | nil =>
    intro v
    simp only [foldPx, List.foldl_nil, combinePx_none_right, mergeOut,
      List.not_mem_nil, or_false]
  | cons w ws ih =>
    intro v
    rw [foldPx_cons, ← combinePx_assoc]
    have h1 : combinePx .extent (some v) (some w)
        = some (if v = 1 ∨ w = 1 then 1 else 0) := rfl
    rw [h1, ih]
    by_cases hv : v = 1 <;> by_cases hw : w = 1 <;>
      simp [hv, hw, List.mem_cons, eq_comm]

theorem mergeVals_eq_foldPx (k : FimKind) (l : List ℚ) :
    mergeVals k l = mergeOut k (foldPx k l) := by
  cases k with
  | depth =>
    cases l with
    | nil => rfl
    | cons v vs =>
      rw [foldPx_cons]
      exact (mergeDepth_foldPx vs v).symm
  | extent =>
    cases l with
    | nil => rfl
    | cons v vs =>
      rw [foldPx_cons, mergeExtent_foldPx]
      simp only [mergeVals, mergeExtent, List.mem_cons, List.isEmpty_cons]
      by_cases hv : v = 1 <;> by_cases hm : (1 : ℚ) ∈ vs <;>
        simp [hv, hm, eq_comm]

theorem foldPx_perm (k : FimKind) {l l' : List ℚ} (h : l.Perm l') :
    foldPx k l = foldPx k l' := by
  have key : ∀ a : Option ℚ, l.foldl (fun acc v => combinePx k acc (some v)) a
      = l'.foldl (fun acc v => combinePx k acc (some v)) a := by
    induction h with
    | nil => intro a; rfl
    | cons x _ ih =>
      intro a
      simp only [List.foldl_cons]
      exact ih _
    | swap x y l =>
      intro a
      simp only [List.foldl_cons]
      rw [combinePx_assoc, combinePx_assoc, combinePx_comm k (some y) (some x)]
    | trans _ _ ih1 ih2 =>
      intro a
      rw [ih1, ih2]
  exact key none

theorem mergeVals_perm (k : FimKind) {l l' : List ℚ} (h : l.Perm l') :
    mergeVals k l = mergeVals k l' := by
  rw [mergeVals_eq_foldPx, mergeVals_eq_foldPx, foldPx_perm k h]

theorem foldl_max_mem (a : ℚ) (l : List ℚ) : l.foldl max a ∈ a :: l := by
  induction l generalizing a with
  | nil => simp
  | cons v vs ih =>
    rw [List.foldl_cons]
    rcases List.mem_cons.mp (ih (max a v)) with h | h
    · rcases max_choice a v with h' | h' <;> rw [h'] at h ⊢ <;> simp [List.mem_cons, h]
    · simp [List.mem_cons, h]

theorem foldl_max_le (a : ℚ) (l : List ℚ) : ∀ v ∈ a :: l, v ≤ l.foldl max a := by
  induction l generalizing a with
  | nil =>
    intro v hv
    rw [List.mem_singleton] at hv
    rw [hv, List.foldl_nil]
  | cons w ws ih =>
    intro v hv
    rw [List.foldl_cons]
    rcases List.mem_cons.mp hv with rfl | hv'
    · exact le_trans (le_max_left v w) (ih (max v w) _ (List.mem_cons_self _ _))
    · rcases List.mem_cons.mp hv' with rfl | hv2
      · exact le_trans (le_max_right a v) (ih (max a v) _ (List.mem_cons_self _ _))
      · exact ih (max a w) v (List.mem_cons_of_mem _ hv2)

theorem mergeDepth_mem {l : List ℚ} (h : l ≠ []) : mergeDepth l ∈ l := by
  cases l with
  | nil => exact absurd rfl h
  | cons v vs => exact foldl_max_mem v vs

theorem mergeDepth_le {l : List ℚ} (v : ℚ) (hv : v ∈ l) : v ≤ mergeDepth l := by
  cases l with
  | nil => simp at hv
  | cons w ws => exact foldl_max_le w ws v hv

theorem srcContribution_eq_some {s : RasterSource} {gx gy : ℤ} {v : ℚ} :
    srcContribution s gx gy = some v ↔ srcValAt s gx gy = some v ∧ v ≠ s.nodata := by
  unfold srcContribution
  cases hval : srcValAt s gx gy with
  | none => simp
  | some w =>
    have hred : (match some w with
        | some u => if u = s.nodata then none else some u
        | (none : Option ℚ) => none) = (if w = s.nodata then none else some w) := rfl
    rw [hred]
    constructor
    · intro h
      by_cases hw : w = s.nodata
      · rw [if_pos hw] at h
        cases h
      · rw [if_neg hw] at h
        have hv : w = v := Option.some.inj h
        subst hv
        exact ⟨rfl, hw⟩
    · rintro ⟨h1, h2⟩
      have hv : w = v := Option.some.inj h1
      subst hv
      rw [if_neg h2]

theorem mem_validValsAt {srcs : List RasterSource} {gx gy : ℤ} {v : ℚ} :
    v ∈ validValsAt srcs gx gy ↔
      ∃ s ∈ srcs, srcValAt s gx gy = some v ∧ v ≠ s.nodata := by
  unfold validValsAt
  rw [List.mem_filterMap]
  constructor
  · rintro ⟨s, hs, hc⟩
    exact ⟨s, hs, srcContribution_eq_some.mp hc⟩
  · rintro ⟨s, hs, hc⟩
    exact ⟨s, hs, srcContribution_eq_some.mpr hc⟩

theorem validValsAt_nil {srcs : List RasterSource} {gx gy : ℤ}
    (h : ∀ s ∈ srcs, ¬ validAt s gx gy) : validValsAt srcs gx gy = [] := by
  rw [List.eq_nil_iff_forall_not_mem]
  intro v hv
  rcases mem_validValsAt.mp hv with ⟨s, hs, h1, h2⟩
  exact h s hs ⟨v, h1, h2⟩

theorem validValsAt_length_le_one {srcs : List RasterSource} {gx gy : ℤ}
    (hdisj : srcs.Pairwise fun s t => ∀ a b : ℤ, ¬(validAt s a b ∧ validAt t a b)) :
    (validValsAt srcs gx gy).length ≤ 1 := by
  induction srcs with
  | nil => simp [validValsAt]
  | cons s rest ih =>
    rcases List.pairwise_cons.mp hdisj with ⟨hd, htl⟩
    unfold validValsAt
    rw [List.filterMap_cons]
    cases hc : srcContribution s gx gy with
    | none => exact ih htl
    | some v =>
      rcases srcContribution_eq_some.mp hc with ⟨h1, h2⟩
      have hrest : validValsAt rest gx gy = [] := by
        apply validValsAt_nil
        intro t ht hvt
        exact hd t ht gx gy ⟨⟨v, h1, h2⟩, hvt⟩
      unfold validValsAt at hrest
      rw [hrest]
      simp

theorem eq_singleton_of_mem_of_length_le_one {l : List ℚ} {v : ℚ}
    (hv : v ∈ l) (hl : l.length ≤ 1) : l = [v] := by
  cases l with
  | nil => simp at hv
  | cons a t =>
    cases t with
    | nil =>
      rw [List.mem_singleton] at hv
      rw [hv]
    | cons b u => simp at hl

theorem srcContribution_none_outside (g : OutputGrid) (wd : Window) (s : RasterSource)
    (gx gy : ℤ) (hs : ¬ intersectsWin g wd s = true)
    (hgx : g.minx + (wd.xoff : ℤ) ≤ gx ∧ gx < g.minx + (wd.xoff : ℤ) + (wd.w : ℤ))
    (hgy : g.miny + (wd.yoff : ℤ) ≤ gy ∧ gy < g.miny + (wd.yoff : ℤ) + (wd.h : ℤ)) :
    srcContribution s gx gy = none := by
  have hval : srcValAt s gx gy = none := by
    unfold srcValAt
    rw [if_neg]
    intro hc
    apply hs
    obtain ⟨h1, h2, h3, h4⟩ := hc
    obtain ⟨h5, h6⟩ := hgx
    obtain ⟨h7, h8⟩ := hgy
    simp only [intersectsWin, Bool.and_eq_true, decide_eq_true_eq]
    omega
  unfold srcContribution
  rw [hval]

theorem validValsAt_filter (g : OutputGrid) (wd : Window) (srcs : List RasterSource)
    (gx gy : ℤ)
    (hgx : g.minx + (wd.xoff : ℤ) ≤ gx ∧ gx < g.minx + (wd.xoff : ℤ) + (wd.w : ℤ))
    (hgy : g.miny + (wd.yoff : ℤ) ≤ gy ∧ gy < g.miny + (wd.yoff : ℤ) + (wd.h : ℤ)) :
    validValsAt (srcs.filter fun s => intersectsWin g wd s) gx gy
      = validValsAt srcs gx gy := by
  induction srcs with
  | nil => rfl
  | cons s rest ih =>
    by_cases hs : intersectsWin g wd s = true
    · rw [List.filter_cons_of_pos hs]
      unfold validValsAt
      rw [List.filterMap_cons, List.filterMap_cons]
      cases hc : srcContribution s gx gy with
      | none => exact ih
      | some v =>
        unfold validValsAt at ih
        rw [ih]
    · rw [List.filter_cons_of_neg (by simpa using hs)]
      unfold validValsAt
      rw [List.filterMap_cons, srcContribution_none_outside g wd s gx gy hs hgx hgy]
      exact ih

theorem writeBlock_px (k : FimKind) (srcs : List RasterSource) (g : OutputGrid)
    (m : ℕ → ℕ → ℚ) (wd : Window) (x y : ℕ) (hin : inWindow wd x y) :
    writeBlock k srcs g m wd x y
      = mergeVals k (validValsAt srcs (g.minx + (x : ℤ)) (g.miny + (y : ℤ))) := by
  unfold writeBlock
  rw [if_pos hin]
  unfold blockMerge
  obtain ⟨h1, h2, h3, h4⟩ := hin
  have hx : ((wd.xoff : ℤ) + ((x - wd.xoff : ℕ) : ℤ)) = (x : ℤ) := by omega
  have hy : ((wd.yoff : ℤ) + ((y - wd.yoff : ℕ) : ℤ)) = (y : ℤ) := by omega
  rw [hx, hy, validValsAt_filter g wd srcs _ _ (by omega) (by omega)]

theorem commitBlocks_px (k : FimKind) (srcs : List RasterSource) (g : OutputGrid)
    (m : ℕ → ℕ → ℚ) (sched : List Window) (x y : ℕ) :
    commitBlocks k srcs g m sched x y
      = if sched.any (fun wd => decide (inWindow wd x y)) then
          mergeVals k (validValsAt srcs (g.minx + (x : ℤ)) (g.miny + (y : ℤ)))
        else m x y := by
  induction sched generalizing m with
  | nil => simp [commitBlocks]
  | cons wd rest ih =>
    unfold commitBlocks at *
    rw [List.foldl_cons, ih]
    by_cases hrest : rest.any (fun wd => decide (inWindow wd x y)) = true
    · simp [hrest, List.any_cons]
    · by_cases hin : inWindow wd x y
      · rw [if_neg (by simpa using hrest), writeBlock_px k srcs g m wd x y hin]
        rw [if_pos]
        simp [List.any_cons, hin]
      · rw [if_neg (by simpa using hrest)]
        rw [if_neg]
        · unfold writeBlock
          rw [if_neg hin]
        · simp [List.any_cons, hin]
          simpa using hrest

theorem planWindows_cover (width height x y : ℕ) :
    (∃ wd ∈ planWindows width height blockSize, inWindow wd x y) ↔
      x < width ∧ y < height := by
  unfold planWindows blockSize
  constructor
  · rintro ⟨wd, hmem, hin⟩
    simp only [List.mem_flatMap, List.mem_map, List.mem_range] at hmem
    obtain ⟨j, hj, i, hi, rfl⟩ := hmem
    obtain ⟨h1, h2, h3, h4⟩ := hin
    simp only at h1 h2 h3 h4
    omega
  · rintro ⟨hx, hy⟩
    refine ⟨⟨(x / 256) * 256, (y / 256) * 256, min 256 (width - (x / 256) * 256),
      min 256 (height - (y / 256) * 256)⟩, ?_, ?_⟩
    · simp only [List.mem_flatMap, List.mem_map, List.mem_range]
      exact ⟨y / 256, by omega, x / 256, by omega, rfl⟩
    · unfold inWindow
      simp only
      omega

theorem chunkify_flatten_aux {α : Type} (c : ℕ) :
    ∀ (n : ℕ) (l : List α), l.length ≤ n → (chunkify c l).flatten = l := by
  intro n
  induction n with
  | zero =>
    intro l hl
    rw [List.eq_nil_of_length_eq_zero (Nat.le_zero.mp hl)]
    simp [chunkify]
  | succ n ih =>
    intro l hl
    cases l with
    | nil => simp [chunkify]
    | cons x xs =>
      rw [chunkify, List.flatten_cons,
        ih (xs.drop c) (by rw [List.length_drop]; simp at hl; omega)]
      rw [List.cons_append, List.take_append_drop]

theorem chunkify_flatten {α : Type} (c : ℕ) (l : List α) :
    (chunkify c l).flatten = l :=
  chunkify_flatten_aux c l.length l le_rfl

theorem mem_schedule (d : ℕ) (ws : List Window) (wd : Window) :
    wd ∈ schedule d ws ↔ wd ∈ ws := by
  unfold schedule
  split_ifs with h
  · exact Iff.rfl
  · constructor
    · intro hwd
      rcases List.mem_flatten.mp hwd with ⟨l, hl, h2⟩
      rw [List.mem_reverse] at hl
      rw [← chunkify_flatten ((ws.length + d - 1) / d - 1) ws]
      exact List.mem_flatten.mpr ⟨l, hl, h2⟩
    · intro hwd
      rw [← chunkify_flatten ((ws.length + d - 1) / d - 1) ws] at hwd
      rcases List.mem_flatten.mp hwd with ⟨l, hl, h2⟩
      exact List.mem_flatten.mpr ⟨l, List.mem_reverse.mpr hl, h2⟩

theorem schedule_any (d : ℕ) (ws : List Window) (p : Window → Bool) :
    (schedule d ws).any p = ws.any p := by
  by_cases h : ws.any p = true
  · rcases List.any_eq_true.mp h with ⟨wd, hmem, hp⟩
    rw [h]
    exact List.any_eq_true.mpr ⟨wd, (mem_schedule d ws wd).mpr hmem, hp⟩
  · have hf : ws.any p = false := by
      cases hb : ws.any p
      · rfl
      · exact absurd hb h
    have h2 : (schedule d ws).any p = false := by
      cases hb : (schedule d ws).any p
      · rfl
      · rcases List.any_eq_true.mp hb with ⟨wd, hmem, hp⟩
        exact absurd (List.any_eq_true.mpr ⟨wd, (mem_schedule d ws wd).mp hmem, hp⟩) h
    rw [hf, h2]

theorem runMosaic_ok (fim : String) (rs : List RawSource) (d : ℕ)
    (p : TypeProfile) (srcs : List RasterSource)
    (hp : resolveTypeProfile fim = .ok p) (hreg : sourceRegistry rs = .ok srcs) :
    runMosaic fim rs d = .ok (mosaicSpec p srcs) := by
  unfold runMosaic
  rw [hp, hreg]
  dsimp only
  rw [Except.ok.injEq]
  unfold mosaicSpec
  rw [OutputRaster.mk.injEq]
  refine ⟨rfl, rfl, rfl, rfl, rfl, rfl, ?_⟩
  funext x y
  rw [commitBlocks_px, schedule_any]
  by_cases h : x < (planGrid srcs).width ∧ y < (planGrid srcs).height
  · rw [if_pos, if_pos h]
    rcases (planWindows_cover (planGrid srcs).width (planGrid srcs).height x y).mpr h with
      ⟨wd, hmem, hin⟩
    exact List.any_eq_true.mpr ⟨wd, hmem, decide_eq_true hin⟩
  · rw [if_neg, if_neg h]
    intro hc
    rcases List.any_eq_true.mp hc with ⟨wd, hmem, hp2⟩
    exact h ((planWindows_cover (planGrid srcs).width (planGrid srcs).height x y).mp
      ⟨wd, hmem, of_decide_eq_true hp2⟩)

/-- C5: sequential (`parallel_blocks = 1`) and pooled (`parallel_blocks = 4`)
runs over the same inputs produce identical results: the same errors on
failure and byte-identical output rasters on success, since the windows tile
the grid disjointly and each block's merge depends only on its own sources. -/
theorem parallel_refines_sequential (fim : String) (rs : List RawSource) :
    runMosaic fim rs 4 = runMosaic fim rs 1 := by
  cases hp : resolveTypeProfile fim with
  | error e => rw [runMosaic_err_kind hp rs 4, runMosaic_err_kind hp rs 1]
  | ok p =>
    cases hreg : sourceRegistry rs with
    | error e => rw [runMosaic_err_reg hp hreg 4, runMosaic_err_reg hp hreg 1]
    | ok srcs =>
      rw [runMosaic_ok fim rs 4 p srcs hp hreg, runMosaic_ok fim rs 1 p srcs hp hreg]

/-- C6: the Type Profile Resolver maps `extent` to datatype `uint8` with
nodata 255 and `depth` to datatype `float32` with nodata -9999, and every
output raster of a successful run carries exactly its profile's datatype and
nodata value. -/
theorem type_profile_resolution :
    resolveTypeProfile "extent" = .ok ⟨.extent, "uint8", 255⟩ ∧
    resolveTypeProfile "depth" = .ok ⟨.depth, "float32", -9999⟩ ∧
    ∀ (fim : String) (rs : List RawSource) (d : ℕ) (p : TypeProfile) (out : OutputRaster),
      resolveTypeProfile fim = .ok p → runMosaic fim rs d = .ok out →
      out.dtype = p.dtype ∧ out.nodata = p.nodata := by
  refine ⟨resolve_extent, resolve_depth, ?_⟩
  intro fim rs d p out hp hrun
  cases hreg : sourceRegistry rs with
  | error e =>
    rw [runMosaic_err_reg hp hreg d] at hrun
    cases hrun
  | ok srcs =>
    rw [runMosaic_ok fim rs d p srcs hp hreg] at hrun
    rw [← Except.ok.inj hrun]
    exact ⟨rfl, rfl⟩

/-- Witness for C6: a concrete `extent` run over one binary source produces
a raster carrying datatype `uint8` and nodata 255. -/
theorem type_profile_resolution_witness :
    resolveTypeProfile "extent" = .ok extentProfile ∧
    runMosaic "extent" [rawExtA] 1 = .ok (mosaicSpec extentProfile [srcExtA]) ∧
    (mosaicSpec extentProfile [srcExtA]).dtype = "uint8" ∧
    (mosaicSpec extentProfile [srcExtA]).nodata = 255 := by
  have hreg : sourceRegistry [rawExtA] = .ok [srcExtA] := rfl
  have hrun := runMosaic_ok "extent" [rawExtA] 1 extentProfile [srcExtA] resolve_extent hreg
  have hfields := type_profile_resolution.2.2 "extent" [rawExtA] 1 extentProfile
    (mosaicSpec extentProfile [srcExtA]) resolve_extent hrun
  exact ⟨resolve_extent, hrun, hfields.1, hfields.2⟩

/-- C7: for every `fim_type` other than `extent` or `depth` the run fails
with `UnsupportedKindError` for every input list — including inputs that
would themselves fail later validation — so the kind check precedes all
raster I/O and no output raster is ever produced. -/
theorem unsupported_kind_fails (fim : String) (rs : List RawSource) (d : ℕ)
    (h1 : fim ≠ "extent") (h2 : fim ≠ "depth") :
    runMosaic fim rs d = .error .UnsupportedKindError :=
  runMosaic_err_kind (resolve_unsupported h1 h2) rs d

/-- Witness for C7: the kind `velocity` fails with `UnsupportedKindError`
even over a source list whose only entry lacks a nodata value. -/
theorem unsupported_kind_fails_witness :
    (("velocity" : String) ≠ "extent" ∧ ("velocity" : String) ≠ "depth") ∧
    runMosaic "velocity" [rawNoNodata] 1 = .error .UnsupportedKindError :=
  ⟨⟨by decide, by decide⟩,
    unsupported_kind_fails "velocity" [rawNoNodata] 1 (by decide) (by decide)⟩

/-- C8: when any one input source lacks a declared nodata value, a run with
a recognised kind fails with `MissingNodataError`; the result is an error,
so no output raster is produced. -/
theorem missing_nodata_fails (fim : String) (rs : List RawSource) (d : ℕ)
    (hkind : fim = "extent" ∨ fim = "depth")
    (hbad : ∃ r ∈ rs, r.nodata = none) :
    runMosaic fim rs d = .error .MissingNodataError := by
  have hreg := sourceRegistry_missing hbad
  rcases hkind with rfl | rfl
  · exact runMosaic_err_reg resolve_extent hreg d
  · exact runMosaic_err_reg resolve_depth hreg d

/-- Witness for C8: an `extent` run over a good source plus a source with no
nodata value fails with `MissingNodataError`. -/
theorem missing_nodata_fails_witness :
    ((("extent" : String) = "extent" ∨ ("extent" : String) = "depth") ∧
      (∃ r ∈ [rawExtA, rawNoNodata], r.nodata = none)) ∧
    runMosaic "extent" [rawExtA, rawNoNodata] 1 = .error .MissingNodataError :=
  ⟨⟨Or.inl rfl, ⟨rawNoNodata, List.mem_cons_of_mem _ (List.mem_cons_self _ _), rfl⟩⟩,
    missing_nodata_fails "extent" [rawExtA, rawNoNodata] 1 (Or.inl rfl)
      ⟨rawNoNodata, List.mem_cons_of_mem _ (List.mem_cons_self _ _), rfl⟩⟩

/-- C1: when the sources' valid regions are pairwise disjoint (and, for
`extent`, inputs are binary as extent rasters are), every in-grid output
pixel equals the value of the single source valid there, and equals the
profile's output-nodata value where no source is valid. -/
theorem disjoint_sources_mosaic (fim : String) (rs : List RawSource) (d : ℕ)
    (p : TypeProfile) (srcs : List RasterSource) (out : OutputRaster)
    (hp : resolveTypeProfile fim = .ok p)
    (hreg : sourceRegistry rs = .ok srcs)
    (hrun : runMosaic fim rs d = .ok out)
    (hdisj : srcs.Pairwise fun s t => ∀ a b : ℤ, ¬(validAt s a b ∧ validAt t a b))
    (hbin : p.kind = .extent → ∀ s ∈ srcs, ∀ (a b : ℤ) (v : ℚ),
      srcValAt s a b = some v → v ≠ s.nodata → v = 0 ∨ v = 1)
    (x y : ℕ) (hx : x < out.width) (hy : y < out.height) :
    (∀ s ∈ srcs, ∀ v : ℚ, srcValAt s (out.minx + (x : ℤ)) (out.miny + (y : ℤ)) = some v →
      v ≠ s.nodata → out.px x y = v) ∧
    ((∀ s ∈ srcs, ¬ validAt s (out.minx + (x : ℤ)) (out.miny + (y : ℤ))) →
      out.px x y = out.nodata) := by
  rw [runMosaic_ok fim rs d p srcs hp hreg] at hrun
  have hout : out = mosaicSpec p srcs := (Except.ok.inj hrun).symm
  subst hout
  simp only [mosaicSpec] at hx hy ⊢
  rw [if_pos ⟨hx, hy⟩]
  constructor
  · intro s hs v hsv hnv
    have hmem : v ∈ validValsAt srcs ((planGrid srcs).minx + (x : ℤ))
        ((planGrid srcs).miny + (y : ℤ)) := mem_validValsAt.mpr ⟨s, hs, hsv, hnv⟩
    rw [eq_singleton_of_mem_of_length_le_one hmem (validValsAt_length_le_one hdisj)]
    cases hk : p.kind with
    | depth => rfl
    | extent =>
      rcases hbin hk s hs _ _ v hsv hnv with rfl | rfl
      · simp [mergeVals, mergeExtent]
      · simp [mergeVals, mergeExtent]
  · intro hnone
    rw [validValsAt_nil hnone]
    rcases resolve_ok_cases hp with rfl | rfl
    · rfl
    · rfl

/-- Witness for C1: two disjoint 1-by-1 depth sources with values 5 at
pixel (0,0) and 7 at pixel (1,0); the mosaic reproduces each value at its
own pixel. -/
theorem disjoint_sources_mosaic_witness :
    runMosaic "depth" [rawDepthA, rawDepthB] 1
      = .ok (mosaicSpec depthProfile [srcDepthA, srcDepthB]) ∧
    (mosaicSpec depthProfile [srcDepthA, srcDepthB]).px 0 0 = 5 ∧
    (mosaicSpec depthProfile [srcDepthA, srcDepthB]).px 1 0 = 7 := by
  have hreg : sourceRegistry [rawDepthA, rawDepthB] = .ok [srcDepthA, srcDepthB] := rfl
  have hrun := runMosaic_ok "depth" [rawDepthA, rawDepthB] 1 depthProfile
    [srcDepthA, srcDepthB] resolve_depth hreg
  have hdisj : ([srcDepthA, srcDepthB] : List RasterSource).Pairwise
      fun s t => ∀ a b : ℤ, ¬(validAt s a b ∧ validAt t a b) := by
    refine List.pairwise_cons.mpr ⟨?_, List.pairwise_singleton _ _⟩
    intro t ht a b hc
    rw [List.mem_singleton] at ht
    subst ht
    rcases hc with ⟨⟨v1, h1, _⟩, ⟨v2, h2, _⟩⟩
    simp only [srcValAt, srcDepthA, srcDepthB] at h1 h2
    split_ifs at h1 h2 with c1 c2
    omega
  have hbin : depthProfile.kind = .extent → ∀ s ∈ ([srcDepthA, srcDepthB] :
      List RasterSource), ∀ (a b : ℤ) (v : ℚ),
      srcValAt s a b = some v → v ≠ s.nodata → v = 0 ∨ v = 1 := by
    intro h
    exact absurd h (by decide)
  have h5 := (disjoint_sources_mosaic "depth" [rawDepthA, rawDepthB] 1 depthProfile
    [srcDepthA, srcDepthB] (mosaicSpec depthProfile [srcDepthA, srcDepthB])
    resolve_depth hreg hrun hdisj hbin 0 0 (by decide) (by decide)).1
    srcDepthA (List.mem_cons_self _ _) 5 (by decide) (by decide)
  have h7 := (disjoint_sources_mosaic "depth" [rawDepthA, rawDepthB] 1 depthProfile
    [srcDepthA, srcDepthB] (mosaicSpec depthProfile [srcDepthA, srcDepthB])
    resolve_depth hreg hrun hdisj hbin 1 0 (by decide) (by decide)).1
    srcDepthB (List.mem_cons_of_mem _ (List.mem_cons_self _ _)) 7 (by decide) (by decide)
  exact ⟨hrun, h5, h7⟩

theorem mergeVals_extent (l : List ℚ) : mergeVals extentProfile.kind l = mergeExtent l := rfl

theorem mergeVals_depth (l : List ℚ) : mergeVals depthProfile.kind l = mergeDepth l := rfl

/-- C2: in `depth` mode, at every in-grid pixel with at least two valid
values from intersecting sources the output equals their maximum — it is one
of the valid values and no valid value exceeds it — and where no source is
valid the output is the output-nodata value -9999. -/
theorem depth_max_merge (rs : List RawSource) (d : ℕ)
    (srcs : List RasterSource) (out : OutputRaster)
    (hreg : sourceRegistry rs = .ok srcs)
    (hrun : runMosaic "depth" rs d = .ok out)
    (x y : ℕ) (hx : x < out.width) (hy : y < out.height) :
    (2 ≤ (validValsAt srcs (out.minx + (x : ℤ)) (out.miny + (y : ℤ))).length →
      out.px x y ∈ validValsAt srcs (out.minx + (x : ℤ)) (out.miny + (y : ℤ)) ∧
      ∀ v ∈ validValsAt srcs (out.minx + (x : ℤ)) (out.miny + (y : ℤ)), v ≤ out.px x y) ∧
    (validValsAt srcs (out.minx + (x : ℤ)) (out.miny + (y : ℤ)) = [] →
      out.px x y = -9999) := by
  rw [runMosaic_ok "depth" rs d depthProfile srcs resolve_depth hreg] at hrun
  have hout : out = mosaicSpec depthProfile srcs := (Except.ok.inj hrun).symm
  subst hout
  simp only [mosaicSpec] at hx hy ⊢
  rw [if_pos ⟨hx, hy⟩]
  constructor
  · intro hlen
    have hne : validValsAt srcs ((planGrid srcs).minx + (x : ℤ))
        ((planGrid srcs).miny + (y : ℤ)) ≠ [] := by
      intro hnil
      rw [hnil] at hlen
      simp at hlen
    exact ⟨mergeDepth_mem hne, fun v hv => mergeDepth_le v hv⟩
  · intro hnil
    rw [hnil]
    rfl

/-- Witness for C2: two overlapping 1-by-1 depth sources at pixel (0,0) with
values 5 and 7; the merged pixel is one of the two valid values and is an
upper bound of both — the max, 7. -/
theorem depth_max_merge_witness :
    2 ≤ (validValsAt [srcDepthA, srcOverB]
        ((mosaicSpec depthProfile [srcDepthA, srcOverB]).minx + ((0 : ℕ) : ℤ))
        ((mosaicSpec depthProfile [srcDepthA, srcOverB]).miny + ((0 : ℕ) : ℤ))).length ∧
    (mosaicSpec depthProfile [srcDepthA, srcOverB]).px 0 0 ∈
      validValsAt [srcDepthA, srcOverB]
        ((mosaicSpec depthProfile [srcDepthA, srcOverB]).minx + ((0 : ℕ) : ℤ))
        ((mosaicSpec depthProfile [srcDepthA, srcOverB]).miny + ((0 : ℕ) : ℤ)) ∧
    (mosaicSpec depthProfile [srcDepthA, srcOverB]).px 0 0 = 7 := by
  have hreg : sourceRegistry [rawDepthA, rawOverB] = .ok [srcDepthA, srcOverB] := rfl
  have hrun := runMosaic_ok "depth" [rawDepthA, rawOverB] 1 depthProfile
    [srcDepthA, srcOverB] resolve_depth hreg
  have hlen : 2 ≤ (validValsAt [srcDepthA, srcOverB]
      ((mosaicSpec depthProfile [srcDepthA, srcOverB]).minx + ((0 : ℕ) : ℤ))
      ((mosaicSpec depthProfile [srcDepthA, srcOverB]).miny + ((0 : ℕ) : ℤ))).length := by
    decide
  have h := (depth_max_merge [rawDepthA, rawOverB] 1 [srcDepthA, srcOverB]
    (mosaicSpec depthProfile [srcDepthA, srcOverB]) hreg hrun 0 0
    (by decide) (by decide)).1 hlen
  exact ⟨hlen, h.1, by decide⟩

/-- C3: in `extent` mode every output pixel is 0, 1 or 255, and at in-grid
pixels the value is 1 when some intersecting source has a valid pixel equal
to 1, 0 when some source is valid there but none equals 1, and the
output-nodata 255 when no source is valid there. -/
theorem extent_output_range (rs : List RawSource) (d : ℕ)
    (srcs : List RasterSource) (out : OutputRaster)
    (hreg : sourceRegistry rs = .ok srcs)
    (hrun : runMosaic "extent" rs d = .ok out) (x y : ℕ) :
    (out.px x y = 0 ∨ out.px x y = 1 ∨ out.px x y = 255) ∧
    (x < out.width → y < out.height →
      ((1 : ℚ) ∈ validValsAt srcs (out.minx + (x : ℤ)) (out.miny + (y : ℤ)) →
        out.px x y = 1) ∧
      (validValsAt srcs (out.minx + (x : ℤ)) (out.miny + (y : ℤ)) ≠ [] →
        (1 : ℚ) ∉ validValsAt srcs (out.minx + (x : ℤ)) (out.miny + (y : ℤ)) →
        out.px x y = 0) ∧
      (validValsAt srcs (out.minx + (x : ℤ)) (out.miny + (y : ℤ)) = [] →
        out.px x y = 255)) := by
  rw [runMosaic_ok "extent" rs d extentProfile srcs resolve_extent hreg] at hrun
  have hout : out = mosaicSpec extentProfile srcs := (Except.ok.inj hrun).symm
  subst hout
  simp only [mosaicSpec]
  constructor
  · by_cases h : x < (planGrid srcs).width ∧ y < (planGrid srcs).height
    · rw [if_pos h, mergeVals_extent]
      unfold mergeExtent
      split_ifs
      · right; left; rfl
      · right; right; rfl
      · left; rfl
    · rw [if_neg h]
      right; right; rfl
  · intro hx hy
    rw [if_pos ⟨hx, hy⟩, mergeVals_extent]
    refine ⟨?_, ?_, ?_⟩
    · intro h1
      unfold mergeExtent
      rw [if_pos h1]
    · intro hne hnot
      unfold mergeExtent
      rw [if_neg hnot, if_neg]
      simpa using hne
    · intro hnil
      rw [hnil]
      rfl

/-- Witness for C3: an `extent` run over one binary source; the pixel under
the source's valid 1 is in range and equals 1. -/
theorem extent_output_range_witness :
    ((mosaicSpec extentProfile [srcExtA]).px 0 0 = 0 ∨
      (mosaicSpec extentProfile [srcExtA]).px 0 0 = 1 ∨
      (mosaicSpec extentProfile [srcExtA]).px 0 0 = 255) ∧
    (mosaicSpec extentProfile [srcExtA]).px 0 0 = 1 := by
  have hreg : sourceRegistry [rawExtA] = .ok [srcExtA] := rfl
  have hrun := runMosaic_ok "extent" [rawExtA] 1 extentProfile [srcExtA]
    resolve_extent hreg
  have h := extent_output_range [rawExtA] 1 [srcExtA]
    (mosaicSpec extentProfile [srcExtA]) hreg hrun 0 0
  exact ⟨h.1, (h.2 (by decide) (by decide)).1 (by decide)⟩

/-- C4: the per-pixel merge result is invariant under any reordering of the
source list, and the underlying binary combination of both rules is
commutative and associative, so merging a concatenation of two groups equals
combining the two groups' merged contributions — the result is invariant
under regrouping. -/
theorem merge_comm_assoc :
    (∀ (k : FimKind) (srcs1 srcs2 : List RasterSource) (gx gy : ℤ), srcs1.Perm srcs2 →
      mergeVals k (validValsAt srcs1 gx gy) = mergeVals k (validValsAt srcs2 gx gy)) ∧
    (∀ (k : FimKind) (a b : Option ℚ), combinePx k a b = combinePx k b a) ∧
    (∀ (k : FimKind) (a b c : Option ℚ),
      combinePx k (combinePx k a b) c = combinePx k a (combinePx k b c)) ∧
    (∀ (k : FimKind) (l1 l2 : List ℚ),
      mergeVals k (l1 ++ l2) = mergeOut k (combinePx k (foldPx k l1) (foldPx k l2))) := by
  refine ⟨?_, combinePx_comm, combinePx_assoc, ?_⟩
  · intro k srcs1 srcs2 gx gy hperm
    exact mergeVals_perm k (hperm.filterMap _)
  · intro k l1 l2
    rw [mergeVals_eq_foldPx]
    have hsplit : foldPx k (l1 ++ l2) = combinePx k (foldPx k l1) (foldPx k l2) := by
      unfold foldPx
      rw [List.foldl_append, foldPx_step]
      rfl
    rw [hsplit]

/-- Witness for C4: swapping two overlapping depth sources leaves the merged
pixel unchanged, and an `extent` merge over a concatenation equals the
combination of the two groups' contributions. -/
theorem merge_comm_assoc_witness :
    mergeVals .depth (validValsAt [srcDepthA, srcOverB] 0 0)
      = mergeVals .depth (validValsAt [srcOverB, srcDepthA] 0 0) ∧
    mergeVals .extent ([5] ++ [1])
      = mergeOut .extent (combinePx .extent (foldPx .extent [5]) (foldPx .extent [1])) :=
  ⟨merge_comm_assoc.1 .depth _ _ 0 0 (List.Perm.swap _ _ _),
    merge_comm_assoc.2.2.2 .extent [5] [1]⟩

end FimMosaicker

open HwmEvaluator

/-- C10: `convert_feet(feet, unit_guess)` returns `feet` unchanged when
`unit_guess` is exactly `'feet'`; for `'meters'` and for every other string it
returns `feet * 0.3048`; consequently, for nonzero `feet` the value is
changed whenever `unit_guess` is not `'feet'`. -/
theorem convert_feet_spec (feet : ℚ) (unit_guess : String) :
    (unit_guess = "feet" → convert_feet feet unit_guess = feet) ∧
    (unit_guess ≠ "feet" → convert_feet feet unit_guess = feet * (381 / 1250)) ∧
    (feet ≠ 0 → unit_guess ≠ "feet" → convert_feet feet unit_guess ≠ feet) := by
  have hmul : unit_guess ≠ "feet" →
      convert_feet feet unit_guess = feet * (381 / 1250) := by
    intro h
    by_cases hm : unit_guess = "meters"
    · simp [convert_feet, hm]
    · simp [convert_feet, hm, h]
  refine ⟨fun h => ?_, hmul, fun hf h => ?_⟩
  · simp [convert_feet, h]
  · rw [hmul h]
    intro heq
    have h0 : feet * (381 / 1250 - 1) = 0 := by linarith [heq]
    rcases mul_eq_zero.mp h0 with hc | hc
    · exact hf hc
    · norm_num at hc

/-- Witness for C10 at `feet = 2`, `unit_guess = "meters"` and
`unit_guess = "feet"`. -/
theorem convert_feet_spec_witness :
    (("feet" : String) = "feet" ∧ convert_feet 2 "feet" = 2) ∧
    (("meters" : String) ≠ "feet" ∧ convert_feet 2 "meters" = 2 * (381 / 1250)) ∧
    ((2 : ℚ) ≠ 0 ∧ convert_feet 2 "meters" ≠ 2) := by
  refine ⟨⟨rfl, (convert_feet_spec 2 "feet").1 rfl⟩,
          ⟨by decide, (convert_feet_spec 2 "meters").2.1 (by decide)⟩,
          ⟨by norm_num, (convert_feet_spec 2 "meters").2.2 (by norm_num) (by decide)⟩⟩

/-- C9: in `process_points`, a point is labelled `"hit"` iff its sampled
raster value is non-`None` and strictly greater than zero (a sampled value of
exactly 0, a negative value, or a point outside coverage — `none` — all yield
`"miss"`), and every point labelled `"hit"` has `dist_to_hit_ft = 0.0` in the
saved output. -/
theorem process_points_hit_spec (v d : Option ℚ) (u : String) :
    ((savedPoint v d u).1 = "hit" ↔ ∃ x, v = some x ∧ 0 < x) ∧
    ((savedPoint v d u).1 = "hit" → (savedPoint v d u).2 = some 0) ∧
    (v = some 0 → (savedPoint v d u).1 = "miss") ∧
    (∀ x, v = some x → x < 0 → (savedPoint v d u).1 = "miss") ∧
    (v = none → (savedPoint v d u).1 = "miss") := by
  refine ⟨?_, ?_, ?_, ?_, ?_⟩
  · constructor
    · intro h
      match hv : v with
      | none => simp [savedPoint, hitLabel, hv] at h
      | some x =>
        refine ⟨x, rfl, ?_⟩
        by_contra hx
        simp [savedPoint, hitLabel, hv, hx] at h
    · rintro ⟨x, rfl, hx⟩
      simp [savedPoint, hitLabel, hx]
  · intro h
    simp only [savedPoint]
    rw [show hitLabel v = "hit" from h]
    simp
  · rintro rfl
    simp [savedPoint, hitLabel]
  · rintro x rfl hx
    simp [savedPoint, hitLabel, not_lt.mpr (le_of_lt hx)]
  · rintro rfl
    simp [savedPoint, hitLabel]

/-- Witness for C9 at a point with sampled value `3/2`, raw distance `5`,
meters CRS: the label is `"hit"` and the saved distance is `0`. -/
theorem process_points_hit_spec_witness :
    (savedPoint (some (3/2)) (some 5) "meters").1 = "hit" ∧
    (savedPoint (some (3/2)) (some 5) "meters").2 = some 0 ∧
    (savedPoint (some 0) (some 5) "meters").1 = "miss" ∧
    (savedPoint none (some 5) "meters").1 = "miss" := by
  have h1 := (process_points_hit_spec (some (3/2)) (some 5) "meters").1.mpr
    ⟨3/2, rfl, by norm_num⟩
  refine ⟨h1, (process_points_hit_spec (some (3/2)) (some 5) "meters").2.1 h1,
    (process_points_hit_spec (some 0) (some 5) "meters").2.2.1 rfl,
    (process_points_hit_spec none (some 5) "meters").2.2.2.2 rfl⟩
